import Mathlib

set_option maxRecDepth 10000

/-!
A shallow embedding of the student record manager in
`src/public/stu_info.cpp`, together with proofs about its operations.

Conventions of the embedding:
* C++ `std::string` is modelled as `String`, `int` as `Int` (the program
  performs no arithmetic on roll numbers, so machine overflow is
  irrelevant and the `int` range check of `std::stoi` is not modelled —
  no value printed by the program overflows when read back).
* The backing file `students.txt` is modelled as a `String` carried in
  the `StudentSystem` state; stream output is string concatenation.
* `std::stoi` may throw `std::invalid_argument`; a throwing call is
  modelled as `none`, and `Student::fromString` / loading propagate it
  as `none`.
* The C++ default constructor `Student() {}` leaves `rollNo`
  uninitialized (the four string members become empty); the
  indeterminate value of the uninitialized `int` is made explicit as a
  `junk` parameter threaded through parsing and loading.
-/

/-- Digit test of the conversion underlying `std::stoi` (ASCII digits),
stated on code points. -/
def isDig (c : Char) : Bool :=
  48 ≤ c.toNat && c.toNat ≤ 57

/-- Whitespace skipped by `std::stoi` before the number: space, TAB, LF,
VT, FF, CR. -/
def isCppSpace (c : Char) : Bool :=
  c.toNat = 32 || c.toNat = 9 || c.toNat = 10 ||
    c.toNat = 11 || c.toNat = 12 || c.toNat = 13

/-- Numeric value of an ASCII digit. -/
def digitVal (c : Char) : Nat := c.toNat - 48

/-- ASCII digit character for a value below 10. -/
def digitChar (d : Nat) : Char := Char.ofNat (48 + d)

/-- Decimal digits of `n`, most significant first; `fuel` bounds the
recursion so that the definition is structural (hence kernel-reducible).
Any `fuel > n` gives the intended value. -/
def natDigitsAux (fuel : Nat) (n : Nat) : List Char :=
  match fuel with
  | 0 => []
  | fuel + 1 =>
      if n < 10 then [digitChar n]
      else natDigitsAux fuel (n / 10) ++ [digitChar (n % 10)]

/-- Decimal digits of `n`, most significant first. -/
def natDigits (n : Nat) : List Char := natDigitsAux (n + 1) n

/-- Decimal rendering of an `int` by `operator<<` on an output stream. -/
def intToDecimal (i : Int) : String :=
  if i < 0 then ⟨'-' :: natDigits i.natAbs⟩ else ⟨natDigits i.natAbs⟩

/-- Leading run of decimal digits, `none` when there is none (then
`std::stoi` throws). Characters after the run are ignored, as in
`stoi`. -/
def readDigits (cs : List Char) : Option Nat :=
  if (cs.takeWhile isDig).isEmpty then none
  else some ((cs.takeWhile isDig).foldl (fun a c => 10 * a + digitVal c) 0)

/-- `std::stoi`: skip whitespace, optional sign, then at least one
digit; `none` models the `std::invalid_argument` exception. -/
def stoi (s : String) : Option Int :=
  match s.data.dropWhile isCppSpace with
  | [] => none
  | c :: cs =>
      if c = '-' then (readDigits cs).map (fun n => -(n : Int))
      else if c = '+' then (readDigits cs).map (fun n => (n : Int))
      else (readDigits (c :: cs)).map (fun n => (n : Int))

/-- Prepend a character to the first group of a split. -/
def consHead (c : Char) : List (List Char) → List (List Char)
  | [] => [[c]]
  | p :: ps => (c :: p) :: ps

/-- Split a character list at every occurrence of `delim`, keeping empty
groups: the loop in `Student::fromString` (`find` / `substr` / `erase`
repeatedly, then push the remainder). A list with `k` occurrences of
`delim` yields `k + 1` groups. -/
def splitOnChar (delim : Char) : List Char → List (List Char)
  | [] => [[]]
  | c :: cs =>
      if c = delim then [] :: splitOnChar delim cs
      else consHead c (splitOnChar delim cs)

/-- The `Student` class: a roll number and four text fields. -/
structure Student where
  rollNo : Int
  name : String
  department : String
  email : String
  phone : String
deriving DecidableEq

/-- The line written by `Student::saveToFile` before the `endl`: the
five fields joined by commas, in fixed order. -/
def Student.serializeLine (s : Student) : String :=
  intToDecimal s.rollNo ++ "," ++ s.name ++ "," ++ s.department ++ "," ++
    s.email ++ "," ++ s.phone

/-- `Student::saveToFile`: what one call appends to the output stream
(the serialized line followed by the line break of `endl`). -/
def Student.saveToFile (s : Student) : String :=
  s.serializeLine ++ "\n"

/-- Output of `Student::display`. -/
def Student.display (s : Student) : String :=
  "Roll No: " ++ intToDecimal s.rollNo ++ "\nName: " ++ s.name ++
    "\nDepartment: " ++ s.department ++ "\nEmail: " ++ s.email ++
    "\nPhone: " ++ s.phone ++ "\n-------------------\n"

/-- `Student::fromString`: split the line on commas; with exactly 5
parts, convert the first with `stoi` (`none` models the thrown
exception) and keep the remaining four as text; with any other number
of parts, return a default-constructed `Student`, whose `rollNo` is the
uninitialized value `junk` and whose string fields are empty. -/
def Student.fromString (junk : Int) (line : String) : Option Student :=
  match splitOnChar ',' line.data with
  | [p0, p1, p2, p3, p4] =>
      (stoi ⟨p0⟩).map (fun r => ⟨r, ⟨p1⟩, ⟨p2⟩, ⟨p3⟩, ⟨p4⟩⟩)
  | _ => some ⟨junk, "", "", "", ""⟩

/-- Field values that survive the unescaped comma-separated format: no
comma and no line break in any of the four text fields. -/
def Student.cleanFields (s : Student) : Prop :=
  (',' ∉ s.name.data ∧ '\n' ∉ s.name.data) ∧
  (',' ∉ s.department.data ∧ '\n' ∉ s.department.data) ∧
  (',' ∉ s.email.data ∧ '\n' ∉ s.email.data) ∧
  (',' ∉ s.phone.data ∧ '\n' ∉ s.phone.data)

instance (s : Student) : Decidable s.cleanFields := by
  unfold Student.cleanFields
  infer_instance

/-- The scan shared by `StudentSystem::searchStudent` and the find loops
of update and delete: first record in order whose roll number matches,
`none` when no record matches. -/
def searchStudent (students : List Student) (roll : Int) : Option Student :=
  match students with
  | [] => none
  | s :: rest => if s.rollNo = roll then some s else searchStudent rest roll

/-- The loop of `StudentSystem::updateStudent` on the sequence: rename
the first matching record in place; the `Bool` is the `found` flag. -/
def updateFirstByRoll (roll : Int) (newName : String) :
    List Student → List Student × Bool
  | [] => ([], false)
  | s :: rest =>
      if s.rollNo = roll then ({ s with name := newName } :: rest, true)
      else
        let r := updateFirstByRoll roll newName rest
        (s :: r.1, r.2)

/-- The loop of `StudentSystem::deleteStudent` on the sequence: erase
the first matching record; the `Bool` is the `found` flag. -/
def deleteFirstByRoll (roll : Int) : List Student → List Student × Bool
  | [] => ([], false)
  | s :: rest =>
      if s.rollNo = roll then (rest, true)
      else
        let r := deleteFirstByRoll roll rest
        (s :: r.1, r.2)

/-- The parsing loop of `StudentSystem::loadFromFile` over the nonempty
lines of the file; `none` models a `stoi` exception escaping the
constructor. -/
def loadLines (junk : Int) : List (List Char) → Option (List Student)
  | [] => some []
  | l :: ls =>
      match Student.fromString junk ⟨l⟩ with
      | none => none
      | some s => (loadLines junk ls).map (fun rest => s :: rest)

/-- The store: the in-memory sequence of `StudentSystem::students` plus
the content of the backing file `students.txt`. -/
structure StudentSystem where
  students : List Student
  file : String
deriving DecidableEq

/-- `StudentSystem::saveToFile` as a function from the sequence to the
file content it writes (full overwrite): every record's line, in
sequence order. -/
def StudentSystem.saveToFile : List Student → String
  | [] => ""
  | s :: rest => s.saveToFile ++ StudentSystem.saveToFile rest

/-- `StudentSystem::loadFromFile`: read the file line by line (`getline`
cuts at every line break; the empty segment after a trailing line break
is discarded by the `line.empty()` check, as are interior empty lines)
and parse each remaining line in file order. -/
def StudentSystem.loadFromFile (junk : Int) (content : String) :
    Option (List Student) :=
  loadLines junk ((splitOnChar '\n' content.data).filter (fun l => !l.isEmpty))

/-- The `StudentSystem` constructor: load the sequence from the backing
file, which it reads but never writes. -/
def StudentSystem.init (junk : Int) (content : String) : Option StudentSystem :=
  (StudentSystem.loadFromFile junk content).map (fun sts => ⟨sts, content⟩)

/-- `StudentSystem::addStudent`, with the prompted-for values as
arguments: append the new record, then rewrite the whole file. -/
def StudentSystem.addStudent (sys : StudentSystem) (roll : Int)
    (name dept email phone : String) : StudentSystem :=
  ⟨sys.students ++ [⟨roll, name, dept, email, phone⟩],
   StudentSystem.saveToFile (sys.students ++ [⟨roll, name, dept, email, phone⟩])⟩

/-- `StudentSystem::viewStudents` output: a message when the sequence is
empty, otherwise every record displayed in sequence order. -/
def StudentSystem.viewStudents (sys : StudentSystem) : List String :=
  if sys.students.isEmpty then ["No records found!"]
  else sys.students.map Student.display

/-- `StudentSystem::updateStudent`: rename the first matching record and
rewrite the file; on a miss nothing is written. The `Bool` is the
`found` flag. -/
def StudentSystem.updateStudent (sys : StudentSystem) (roll : Int)
    (newName : String) : StudentSystem × Bool :=
  let r := updateFirstByRoll roll newName sys.students
  (⟨r.1, if r.2 then StudentSystem.saveToFile r.1 else sys.file⟩, r.2)

/-- `StudentSystem::deleteStudent`: erase the first matching record and
rewrite the file; on a miss nothing is written. The `Bool` is the
`found` flag. -/
def StudentSystem.deleteStudent (sys : StudentSystem) (roll : Int) :
    StudentSystem × Bool :=
  let r := deleteFirstByRoll roll sys.students
  (⟨r.1, if r.2 then StudentSystem.saveToFile r.1 else sys.file⟩, r.2)

/-- One dispatched menu operation, with the values the operation would
prompt for already supplied. -/
inductive Cmd where
  | add (roll : Int) (name dept email phone : String)
  | view
  | search (roll : Int)
  | update (roll : Int) (newName : String)
  | delete (roll : Int)

/-- Effect of one menu operation on the store state (sequence and
backing file). `viewStudents` and `searchStudent` only print; they
leave both components untouched. -/
def step (sys : StudentSystem) : Cmd → StudentSystem
  | .add roll n d e p => sys.addStudent roll n d e p
  | .view => sys
  | .search _ => sys
  | .update roll n => (sys.updateStudent roll n).1
  | .delete roll => (sys.deleteStudent roll).1

/-- Whether the command is a mutating operation that reports success
(add always does; update and delete report their `found` flag; view and
search are not mutating operations). -/
def mutatingSuccess (sys : StudentSystem) : Cmd → Bool
  | .add _ _ _ _ _ => true
  | .view => false
  | .search _ => false
  | .update roll n => (sys.updateStudent roll n).2
  | .delete roll => (sys.deleteStudent roll).2

/-- The two read-only menu operations. -/
def Cmd.isReadOnly : Cmd → Bool
  | .view => true
  | .search _ => true
  | _ => false

lemma natDigitsAux_congr :
    ∀ f g m : Nat, m < f → m < g → natDigitsAux f m = natDigitsAux g m := by
  intro f
  induction f with
  | zero => intro g m hf; omega
  | succ f ih =>
      intro g m hf hg
      match g, hg with
      | g + 1, _ =>
        simp only [natDigitsAux]
        by_cases h10 : m < 10
        · simp [h10]
        · simp only [if_neg h10]
          rw [ih g (m / 10) (by omega) (by omega)]

lemma natDigits_eq (n : Nat) :
    natDigits n =
      if n < 10 then [digitChar n]
      else natDigits (n / 10) ++ [digitChar (n % 10)] := by
  conv_lhs => simp only [natDigits, natDigitsAux]
  by_cases h10 : n < 10
  · simp [h10]
  · simp only [if_neg h10]
    unfold natDigits
    rw [natDigitsAux_congr n (n / 10 + 1) (n / 10) (by omega) (by omega)]

lemma toNat_digitChar {d : Nat} (h : d < 10) : (digitChar d).toNat = 48 + d := by
  interval_cases d <;> decide

lemma digitVal_digitChar {d : Nat} (h : d < 10) : digitVal (digitChar d) = d := by
  interval_cases d <;> decide

lemma isDig_digitChar {d : Nat} (h : d < 10) : isDig (digitChar d) = true := by
  interval_cases d <;> decide

lemma natDigits_ne_nil (n : Nat) : natDigits n ≠ [] := by
  rw [natDigits_eq]
  split
  · simp
  · simp

lemma natDigits_all_isDig (n : Nat) : ∀ c ∈ natDigits n, isDig c = true := by
  induction n using Nat.strong_induction_on with
  | _ n ih =>
      rw [natDigits_eq]
      by_cases h10 : n < 10
      · simp only [if_pos h10]
        intro c hc
        simp only [List.mem_singleton] at hc
        subst hc
        exact isDig_digitChar h10
      · simp only [if_neg h10]
        intro c hc
        rcases List.mem_append.1 hc with hmem | hmem
        · exact ih (n / 10) (by omega) c hmem
        · simp only [List.mem_singleton] at hmem
          subst hmem
          exact isDig_digitChar (by omega)

lemma foldl_digits_natDigits (n : Nat) :
    ∀ a : Nat,
      (natDigits n).foldl (fun acc c => 10 * acc + digitVal c) a =
        a * 10 ^ (natDigits n).length + n := by
  induction n using Nat.strong_induction_on with
  | _ n ih =>
      intro a
      rw [natDigits_eq]
      by_cases h10 : n < 10
      · simp only [if_pos h10, List.foldl_cons, List.foldl_nil,
          List.length_singleton, pow_one]
        rw [digitVal_digitChar h10]
        ring
      · simp only [if_neg h10, List.foldl_append, List.foldl_cons,
          List.foldl_nil, List.length_append, List.length_singleton]
        rw [ih (n / 10) (by omega) a, digitVal_digitChar (show n % 10 < 10 by omega)]
        have hdm : 10 * (n / 10) + n % 10 = n := Nat.div_add_mod n 10
        calc 10 * (a * 10 ^ (natDigits (n / 10)).length + n / 10) + n % 10 =
              a * (10 ^ (natDigits (n / 10)).length * 10) +
                (10 * (n / 10) + n % 10) := by ring
          _ = a * 10 ^ ((natDigits (n / 10)).length + 1) + n := by
              rw [hdm, pow_succ]

lemma takeWhile_eq_self_of_all {p : Char → Bool} :
    ∀ l : List Char, (∀ c ∈ l, p c = true) → l.takeWhile p = l := by
  intro l
  induction l with
  | nil => intro _; rfl
  | cons c cs ih =>
      intro h
      rw [List.takeWhile_cons, if_pos (h c (List.mem_cons_self c cs))]
      rw [ih (fun x hx => h x (List.mem_cons_of_mem c hx))]

lemma readDigits_natDigits (n : Nat) : readDigits (natDigits n) = some n := by
  unfold readDigits
  rw [takeWhile_eq_self_of_all _ (natDigits_all_isDig n)]
  rw [if_neg (by simp [List.isEmpty_iff, natDigits_ne_nil n])]
  rw [foldl_digits_natDigits n 0]
  simp

lemma isDig_toNat {c : Char} (h : isDig c = true) :
    48 ≤ c.toNat ∧ c.toNat ≤ 57 := by
  simpa [isDig] using h

lemma not_isCppSpace_of_isDig {c : Char} (h : isDig c = true) :
    isCppSpace c = false := by
  have h2 := isDig_toNat h
  simp only [isCppSpace]
  simp only [Bool.or_eq_false_iff, decide_eq_false_iff_not]
  omega

lemma isDig_ne_of_toNat {c : Char} (h : isDig c = true) (d : Char)
    (hd : d.toNat < 48 ∨ 57 < d.toNat) : c ≠ d := by
  have h2 := isDig_toNat h
  intro e
  subst e
  omega

lemma stoi_mk_cons (c : Char) (cs : List Char) (hsp : isCppSpace c = false) :
    stoi ⟨c :: cs⟩ =
      if c = '-' then (readDigits cs).map (fun n => -(n : Int))
      else if c = '+' then (readDigits cs).map (fun n => (n : Int))
      else (readDigits (c :: cs)).map (fun n => (n : Int)) := by
  unfold stoi
  have hdata : (String.data ⟨c :: cs⟩) = c :: cs := rfl
  rw [hdata, List.dropWhile_cons, hsp]
  simp

lemma stoi_intToDecimal (i : Int) : stoi (intToDecimal i) = some i := by
  by_cases hi : i < 0
  · have hrep : intToDecimal i = ⟨'-' :: natDigits i.natAbs⟩ := by
      unfold intToDecimal
      rw [if_pos hi]
    rw [hrep, stoi_mk_cons '-' _ (by decide), if_pos rfl, readDigits_natDigits]
    have habs : -((i.natAbs : Nat) : Int) = i := by omega
    show some (-((i.natAbs : Nat) : Int)) = some i
    rw [habs]
  · have hrep : intToDecimal i = ⟨natDigits i.natAbs⟩ := by
      unfold intToDecimal
      rw [if_neg hi]
    obtain ⟨c, cs, hc⟩ := List.exists_cons_of_ne_nil (natDigits_ne_nil i.natAbs)
    have hdig : isDig c = true := by
      apply natDigits_all_isDig i.natAbs
      rw [hc]
      exact List.mem_cons_self c cs
    have hmk : (⟨natDigits i.natAbs⟩ : String) = ⟨c :: cs⟩ := by rw [hc]
    rw [hrep, hmk, stoi_mk_cons c cs (not_isCppSpace_of_isDig hdig)]
    rw [if_neg (isDig_ne_of_toNat hdig '-' (by decide)),
      if_neg (isDig_ne_of_toNat hdig '+' (by decide))]
    rw [← hc, readDigits_natDigits]
    have habs : ((i.natAbs : Nat) : Int) = i := by omega
    show some ((i.natAbs : Nat) : Int) = some i
    rw [habs]

lemma data_append (a b : String) : (a ++ b).data = a.data ++ b.data := rfl

lemma mk_data (s : String) : (⟨s.data⟩ : String) = s := rfl

lemma splitOnChar_cons (delim c : Char) (cs : List Char) :
    splitOnChar delim (c :: cs) =
      if c = delim then [] :: splitOnChar delim cs
      else consHead c (splitOnChar delim cs) := rfl

lemma splitOnChar_of_not_mem {delim : Char} :
    ∀ l : List Char, (∀ c ∈ l, c ≠ delim) → splitOnChar delim l = [l] := by
  intro l
  induction l with
  | nil => intro _; rfl
  | cons c cs ih =>
      intro h
      rw [splitOnChar_cons, if_neg (h c (List.mem_cons_self c cs)),
        ih (fun x hx => h x (List.mem_cons_of_mem c hx))]
      rfl

lemma splitOnChar_append {delim : Char} :
    ∀ a rest : List Char, (∀ c ∈ a, c ≠ delim) →
      splitOnChar delim (a ++ delim :: rest) = a :: splitOnChar delim rest := by
  intro a
  induction a with
  | nil =>
      intro rest _
      rw [List.nil_append, splitOnChar_cons, if_pos rfl]
  | cons c a' ih =>
      intro rest h
      rw [List.cons_append, splitOnChar_cons,
        if_neg (h c (List.mem_cons_self c a')),
        ih rest (fun x hx => h x (List.mem_cons_of_mem c hx))]
      rfl

lemma serializeLine_data (s : Student) :
    s.serializeLine.data =
      (intToDecimal s.rollNo).data ++ (',' :: (s.name.data ++ (',' ::
        (s.department.data ++ (',' :: (s.email.data ++
          (',' :: s.phone.data))))))) := by
  have hcomma : ("," : String).data = [','] := rfl
  simp only [Student.serializeLine, data_append, hcomma, List.append_assoc,
    List.cons_append, List.singleton_append, List.nil_append]

lemma ne_of_not_mem {c d : Char} {l : List Char} (hd : d ∉ l) (hc : c ∈ l) :
    c ≠ d :=
  fun e => hd (e ▸ hc)

lemma mem_intToDecimal {i : Int} {c : Char} (hc : c ∈ (intToDecimal i).data) :
    c.toNat = 45 ∨ (48 ≤ c.toNat ∧ c.toNat ≤ 57) := by
  unfold intToDecimal at hc
  by_cases hi : i < 0
  · rw [if_pos hi] at hc
    have hdata :
        (⟨'-' :: natDigits i.natAbs⟩ : String).data = '-' :: natDigits i.natAbs :=
      rfl
    rw [hdata] at hc
    rcases List.mem_cons.1 hc with rfl | hmem
    · left
      decide
    · right
      exact isDig_toNat (natDigits_all_isDig _ _ hmem)
  · rw [if_neg hi] at hc
    have hdata : (⟨natDigits i.natAbs⟩ : String).data = natDigits i.natAbs := rfl
    rw [hdata] at hc
    right
    exact isDig_toNat (natDigits_all_isDig _ _ hc)

lemma intToDecimal_ne {i : Int} {c : Char} (hc : c ∈ (intToDecimal i).data)
    (d : Char) (hd : d.toNat ≠ 45 ∧ (d.toNat < 48 ∨ 57 < d.toNat)) : c ≠ d := by
  rcases mem_intToDecimal hc with h | h <;> (intro e; subst e; omega)

lemma splitComma_serializeLine (s : Student) (h : s.cleanFields) :
    splitOnChar ',' s.serializeLine.data =
      [(intToDecimal s.rollNo).data, s.name.data, s.department.data,
        s.email.data, s.phone.data] := by
  obtain ⟨⟨hn, _⟩, ⟨hd, _⟩, ⟨he, _⟩, ⟨hp, _⟩⟩ := h
  rw [serializeLine_data]
  rw [splitOnChar_append _ _ (fun c hc => intToDecimal_ne hc ',' (by decide))]
  rw [splitOnChar_append _ _ (fun c hc => ne_of_not_mem hn hc)]
  rw [splitOnChar_append _ _ (fun c hc => ne_of_not_mem hd hc)]
  rw [splitOnChar_append _ _ (fun c hc => ne_of_not_mem he hc)]
  rw [splitOnChar_of_not_mem _ (fun c hc => ne_of_not_mem hp hc)]

lemma fromString_five (junk : Int) (line : String) (p0 p1 p2 p3 p4 : List Char)
    (h : splitOnChar ',' line.data = [p0, p1, p2, p3, p4]) :
    Student.fromString junk line =
      (stoi ⟨p0⟩).map (fun r => ⟨r, ⟨p1⟩, ⟨p2⟩, ⟨p3⟩, ⟨p4⟩⟩) := by
  unfold Student.fromString
  rw [h]

lemma fromString_not_five (junk : Int) (line : String)
    (h : (splitOnChar ',' line.data).length ≠ 5) :
    Student.fromString junk line = some ⟨junk, "", "", "", ""⟩ := by
  unfold Student.fromString
  split
  · rename_i p0 p1 p2 p3 p4 heq
    exfalso
    apply h
    rw [heq]
    rfl
  · rfl

lemma fromString_serializeLine (junk : Int) (s : Student) (h : s.cleanFields) :
    Student.fromString junk s.serializeLine = some s := by
  rw [fromString_five junk s.serializeLine _ _ _ _ _ (splitComma_serializeLine s h)]
  simp only [mk_data]
  rw [stoi_intToDecimal]
  rfl

lemma mem_serializeLine {s : Student} {c : Char} (hc : c ∈ s.serializeLine.data) :
    c ∈ (intToDecimal s.rollNo).data ∨ c = ',' ∨ c ∈ s.name.data ∨
      c ∈ s.department.data ∨ c ∈ s.email.data ∨ c ∈ s.phone.data := by
  rw [serializeLine_data] at hc
  simp only [List.mem_append, List.mem_cons] at hc
  tauto

lemma serializeLine_no_newline (s : Student) (h : s.cleanFields) :
    ∀ c ∈ s.serializeLine.data, c ≠ '\n' := by
  obtain ⟨⟨_, hn⟩, ⟨_, hd⟩, ⟨_, he⟩, ⟨_, hp⟩⟩ := h
  intro c hc
  rcases mem_serializeLine hc with h1 | rfl | h1 | h1 | h1 | h1
  · exact intToDecimal_ne h1 '\n' (by decide)
  · decide
  · exact ne_of_not_mem hn h1
  · exact ne_of_not_mem hd h1
  · exact ne_of_not_mem he h1
  · exact ne_of_not_mem hp h1

lemma serializeLine_data_ne_nil (s : Student) : s.serializeLine.data ≠ [] := by
  rw [serializeLine_data]
  intro e
  rcases List.append_eq_nil.1 e with ⟨_, h2⟩
  exact List.cons_ne_nil _ _ h2

lemma saveToFile_cons_data (s : Student) (rest : List Student) :
    (StudentSystem.saveToFile (s :: rest)).data =
      s.serializeLine.data ++ '\n' :: (StudentSystem.saveToFile rest).data := by
  show (s.saveToFile ++ StudentSystem.saveToFile rest).data = _
  rw [data_append]
  show (s.serializeLine ++ "\n").data ++ _ = _
  rw [data_append]
  have hnl : ("\n" : String).data = ['\n'] := rfl
  rw [hnl, List.append_assoc]
  rfl

lemma loadFromFile_saveToFile (junk : Int) :
    ∀ sts : List Student, (∀ s ∈ sts, s.cleanFields) →
      StudentSystem.loadFromFile junk (StudentSystem.saveToFile sts) = some sts := by
  intro sts
  induction sts with
  | nil => intro _; rfl
  | cons s rest ih =>
      intro h
      have hs := h s (List.mem_cons_self s rest)
      have hrest := fun x hx => h x (List.mem_cons_of_mem s hx)
      have hne : (!s.serializeLine.data.isEmpty) = true := by
        simp [List.isEmpty_iff, serializeLine_data_ne_nil s]
      have hline : Student.fromString junk ⟨s.serializeLine.data⟩ = some s := by
        rw [mk_data]
        exact fromString_serializeLine junk s hs
      have ih2 := ih hrest
      unfold StudentSystem.loadFromFile at ih2 ⊢
      have hfilter :
          List.filter (fun l => !l.isEmpty)
              (s.serializeLine.data ::
                splitOnChar '\n' (StudentSystem.saveToFile rest).data) =
            s.serializeLine.data ::
              List.filter (fun l => !l.isEmpty)
                (splitOnChar '\n' (StudentSystem.saveToFile rest).data) := by
        simp [List.filter_cons, hne]
      rw [saveToFile_cons_data,
        splitOnChar_append _ _ (serializeLine_no_newline s hs), hfilter]
      unfold loadLines
      rw [hline, ih2]
      rfl

lemma searchStudent_cons (s : Student) (rest : List Student) (roll : Int) :
    searchStudent (s :: rest) roll =
      if s.rollNo = roll then some s else searchStudent rest roll := rfl

lemma searchStudent_eq_none_iff (l : List Student) (roll : Int) :
    searchStudent l roll = none ↔ ∀ t ∈ l, t.rollNo ≠ roll := by
  induction l with
  | nil => simp [searchStudent]
  | cons a l ih =>
      rw [searchStudent_cons]
      by_cases ha : a.rollNo = roll
      · rw [if_pos ha]
        constructor
        · intro h
          exact Option.noConfusion h
        · intro h
          exact absurd ha (h a (List.mem_cons_self a l))
      · rw [if_neg ha, ih]
        constructor
        · intro h t ht
          rcases List.mem_cons.1 ht with rfl | ht
          · exact ha
          · exact h t ht
        · intro h t ht
          exact h t (List.mem_cons_of_mem a ht)

lemma searchStudent_append_first (roll : Int) (s : Student) (post : List Student)
    (hs : s.rollNo = roll) :
    ∀ pre : List Student, (∀ t ∈ pre, t.rollNo ≠ roll) →
      searchStudent (pre ++ s :: post) roll = some s := by
  intro pre
  induction pre with
  | nil =>
      intro _
      rw [List.nil_append, searchStudent_cons, if_pos hs]
  | cons b pre ih =>
      intro h
      rw [List.cons_append, searchStudent_cons,
        if_neg (h b (List.mem_cons_self b pre)),
        ih (fun x hx => h x (List.mem_cons_of_mem b hx))]

lemma searchStudent_eq_some_iff (roll : Int) (s : Student) (l : List Student) :
    searchStudent l roll = some s ↔
      ∃ pre post, l = pre ++ s :: post ∧ (∀ t ∈ pre, t.rollNo ≠ roll) ∧
        s.rollNo = roll := by
  induction l with
  | nil =>
      constructor
      · intro h
        exact Option.noConfusion h
      · rintro ⟨pre, post, h, -, -⟩
        cases pre <;> simp at h
  | cons a l ih =>
      rw [searchStudent_cons]
      by_cases ha : a.rollNo = roll
      · rw [if_pos ha]
        constructor
        · intro h
          have has : a = s := by injection h
          subst has
          exact ⟨[], l, rfl, by simp, ha⟩
        · rintro ⟨pre, post, h, hpre, hs⟩
          cases pre with
          | nil =>
              simp only [List.nil_append] at h
              injection h with h1 h2
              rw [h1]
          | cons b pre =>
              simp only [List.cons_append] at h
              injection h with h1 h2
              have hb : b.rollNo = roll := by rw [← h1]; exact ha
              exact absurd hb (hpre b (List.mem_cons_self b pre))
      · rw [if_neg ha, ih]
        constructor
        · rintro ⟨pre, post, h, hpre, hs⟩
          refine ⟨a :: pre, post, ?_, ?_, hs⟩
          · rw [h, List.cons_append]
          · intro t ht
            rcases List.mem_cons.1 ht with rfl | ht
            · exact ha
            · exact hpre t ht
        · rintro ⟨pre, post, h, hpre, hs⟩
          cases pre with
          | nil =>
              simp only [List.nil_append] at h
              injection h with h1 h2
              have : a.rollNo = roll := by rw [h1]; exact hs
              exact absurd this ha
          | cons b pre =>
              simp only [List.cons_append] at h
              injection h with h1 h2
              exact ⟨pre, post, h2,
                fun t ht => hpre t (List.mem_cons_of_mem b ht), hs⟩

lemma updateFirstByRoll_cons (roll : Int) (newName : String) (s : Student)
    (rest : List Student) :
    updateFirstByRoll roll newName (s :: rest) =
      if s.rollNo = roll then ({ s with name := newName } :: rest, true)
      else (s :: (updateFirstByRoll roll newName rest).1,
        (updateFirstByRoll roll newName rest).2) := rfl

lemma updateFirstByRoll_not_found (roll : Int) (newName : String) :
    ∀ l : List Student, (∀ t ∈ l, t.rollNo ≠ roll) →
      updateFirstByRoll roll newName l = (l, false) := by
  intro l
  induction l with
  | nil => intro _; rfl
  | cons s rest ih =>
      intro h
      rw [updateFirstByRoll_cons, if_neg (h s (List.mem_cons_self s rest)),
        ih (fun x hx => h x (List.mem_cons_of_mem s hx))]

lemma updateFirstByRoll_found (roll : Int) (newName : String) (s : Student)
    (post : List Student) (hs : s.rollNo = roll) :
    ∀ pre : List Student, (∀ t ∈ pre, t.rollNo ≠ roll) →
      updateFirstByRoll roll newName (pre ++ s :: post) =
        (pre ++ { s with name := newName } :: post, true) := by
  intro pre
  induction pre with
  | nil =>
      intro _
      rw [List.nil_append, updateFirstByRoll_cons, if_pos hs, List.nil_append]
  | cons b pre ih =>
      intro h
      rw [List.cons_append, updateFirstByRoll_cons,
        if_neg (h b (List.mem_cons_self b pre)),
        ih (fun x hx => h x (List.mem_cons_of_mem b hx)), List.cons_append]

lemma deleteFirstByRoll_cons (roll : Int) (s : Student) (rest : List Student) :
    deleteFirstByRoll roll (s :: rest) =
      if s.rollNo = roll then (rest, true)
      else (s :: (deleteFirstByRoll roll rest).1,
        (deleteFirstByRoll roll rest).2) := rfl

lemma deleteFirstByRoll_not_found (roll : Int) :
    ∀ l : List Student, (∀ t ∈ l, t.rollNo ≠ roll) →
      deleteFirstByRoll roll l = (l, false) := by
  intro l
  induction l with
  | nil => intro _; rfl
  | cons s rest ih =>
      intro h
      rw [deleteFirstByRoll_cons, if_neg (h s (List.mem_cons_self s rest)),
        ih (fun x hx => h x (List.mem_cons_of_mem s hx))]

lemma deleteFirstByRoll_found (roll : Int) (s : Student) (post : List Student)
    (hs : s.rollNo = roll) :
    ∀ pre : List Student, (∀ t ∈ pre, t.rollNo ≠ roll) →
      deleteFirstByRoll roll (pre ++ s :: post) = (pre ++ post, true) := by
  intro pre
  induction pre with
  | nil =>
      intro _
      rw [List.nil_append, deleteFirstByRoll_cons, if_pos hs, List.nil_append]
  | cons b pre ih =>
      intro h
      rw [List.cons_append, deleteFirstByRoll_cons,
        if_neg (h b (List.mem_cons_self b pre)),
        ih (fun x hx => h x (List.mem_cons_of_mem b hx)), List.cons_append]

/-- Claim C1: for every successful mutating operation (add, updateName,
delete) from any store state, the backing file's content immediately
after the operation equals the exact serialization (serialize of each
record, one line each) of the in-memory sequence, in sequence order. -/
theorem file_is_serialization_after_mutation (sys : StudentSystem) (c : Cmd)
    (h : mutatingSuccess sys c = true) :
    (step sys c).file = StudentSystem.saveToFile (step sys c).students := by
  cases c with
  | add roll n d e p => rfl
  | view => exact Bool.noConfusion h
  | search roll => exact Bool.noConfusion h
  | update roll n =>
      have h2 : (updateFirstByRoll roll n sys.students).2 = true := h
      show ((sys.updateStudent roll n).1).file =
        StudentSystem.saveToFile ((sys.updateStudent roll n).1).students
      simp only [StudentSystem.updateStudent]
      rw [if_pos h2]
  | delete roll =>
      have h2 : (deleteFirstByRoll roll sys.students).2 = true := h
      show ((sys.deleteStudent roll).1).file =
        StudentSystem.saveToFile ((sys.deleteStudent roll).1).students
      simp only [StudentSystem.deleteStudent]
      rw [if_pos h2]

theorem file_is_serialization_after_mutation_witness :
    mutatingSuccess ⟨[⟨1, "A", "B", "C", "D"⟩], "x"⟩ (Cmd.update 1 "Z") = true ∧
    (step ⟨[⟨1, "A", "B", "C", "D"⟩], "x"⟩ (Cmd.update 1 "Z")).file =
      StudentSystem.saveToFile
        (step ⟨[⟨1, "A", "B", "C", "D"⟩], "x"⟩ (Cmd.update 1 "Z")).students :=
  ⟨by decide, file_is_serialization_after_mutation _ _ (by decide)⟩

/-- Claim C2: for every record whose five field values contain no comma
and no line-break characters, parsing the line produced by serializing
it yields the record back (whatever the indeterminate value of an
uninitialized `int` would be). -/
theorem parse_serialize_roundtrip (junk : Int) (r : Student)
    (h : r.cleanFields) :
    Student.fromString junk r.serializeLine = some r :=
  fromString_serializeLine junk r h

theorem parse_serialize_roundtrip_witness :
    Student.cleanFields ⟨7, "Alice", "CS", "a@x.com", "555"⟩ ∧
    Student.fromString 0
        (Student.serializeLine ⟨7, "Alice", "CS", "a@x.com", "555"⟩) =
      some ⟨7, "Alice", "CS", "a@x.com", "555"⟩ :=
  ⟨by decide,
    parse_serialize_roundtrip 0 ⟨7, "Alice", "CS", "a@x.com", "555"⟩ (by decide)⟩

/-- Claim C3, counterexample: the default-constructed `Student` leaves
`rollNo` uninitialized, so when the indeterminate value is 1 the record
parsed from a 3-part line has roll number 1, not 0. -/
theorem malformed_line_zero_rollNo_cex :
    Student.fromString 1 "a,b,c" ≠ some ⟨0, "", "", "", ""⟩ := by decide

/-- Claim C3 (amended): for every input line whose comma-split yields a
number of parts other than 5, parse signals no error and returns a
record whose four text fields are all empty and whose roll number is
the indeterminate value of the uninitialized `int` of the default
constructor (not guaranteed to be 0); in particular a line with only 3
comma-separated parts loads as such a record. -/
theorem fromString_malformed_default (junk : Int) (line : String)
    (h : (splitOnChar ',' line.data).length ≠ 5) :
    Student.fromString junk line = some ⟨junk, "", "", "", ""⟩ :=
  fromString_not_five junk line h

theorem fromString_malformed_default_witness :
    (splitOnChar ',' ("a,b,c" : String).data).length ≠ 5 ∧
    Student.fromString 7 "a,b,c" = some ⟨7, "", "", "", ""⟩ :=
  ⟨by decide, fromString_malformed_default 7 "a,b,c" (by decide)⟩

/-- Claim C4, counterexample: adding a record whose roll number is
already present makes `findByRoll` return the earlier record, not the
added one; and adding a record whose name contains the comma delimiter
makes a fresh reload of the backing file yield the zeroed default
record (shown for indeterminate value 0) instead of the added record. -/
theorem add_then_find_reload_cex :
    searchStudent ((StudentSystem.addStudent ⟨[⟨1, "A", "B", "C", "D"⟩], "f"⟩
        1 "X" "Y" "Z" "W").students) 1 ≠ some ⟨1, "X", "Y", "Z", "W"⟩ ∧
    StudentSystem.loadFromFile 0
        ((StudentSystem.addStudent ⟨[], ""⟩ 1 "A,B" "C" "D" "E").file) =
      some [⟨0, "", "", "", ""⟩] := by decide

/-- Claim C4 (amended): for every store state in which no record
carries the added record's roll number, and whose records (and the
added record) have comma-free and line-break-free fields, immediately
after add(r): findByRoll(r.rollNo) returns a record equal to r, and
loading the backing file fresh yields exactly the in-memory sequence,
whose last element equals r. -/
theorem add_then_find_and_reload (junk : Int) (sys : StudentSystem)
    (r : Student)
    (hfresh : ∀ t ∈ sys.students, t.rollNo ≠ r.rollNo)
    (hclean : ∀ t ∈ sys.students, t.cleanFields) (hr : r.cleanFields) :
    searchStudent
        (sys.addStudent r.rollNo r.name r.department r.email r.phone).students
        r.rollNo = some r ∧
    StudentSystem.loadFromFile junk
        (sys.addStudent r.rollNo r.name r.department r.email r.phone).file =
      some (sys.students ++ [r]) ∧
    (sys.students ++ [r]).getLast? = some r := by
  have heta : (⟨r.rollNo, r.name, r.department, r.email, r.phone⟩ : Student) = r :=
    rfl
  refine ⟨?_, ?_, ?_⟩
  · show searchStudent
        (sys.students ++ [⟨r.rollNo, r.name, r.department, r.email, r.phone⟩])
        r.rollNo = some r
    rw [heta]
    exact searchStudent_append_first r.rollNo r [] rfl sys.students hfresh
  · show StudentSystem.loadFromFile junk
        (StudentSystem.saveToFile
          (sys.students ++ [⟨r.rollNo, r.name, r.department, r.email, r.phone⟩])) =
      some (sys.students ++ [r])
    rw [heta]
    apply loadFromFile_saveToFile
    intro t ht
    rcases List.mem_append.1 ht with h1 | h1
    · exact hclean t h1
    · rw [List.mem_singleton.1 h1]
      exact hr
  · exact List.getLast?_concat _

theorem add_then_find_and_reload_witness :
    searchStudent
        ((⟨[], ""⟩ : StudentSystem).addStudent 1 "A" "B" "C" "D").students 1 =
      some ⟨1, "A", "B", "C", "D"⟩ ∧
    StudentSystem.loadFromFile 0
        ((⟨[], ""⟩ : StudentSystem).addStudent 1 "A" "B" "C" "D").file =
      some [⟨1, "A", "B", "C", "D"⟩] := by
  have h := add_then_find_and_reload 0 ⟨[], ""⟩ ⟨1, "A", "B", "C", "D"⟩
    (by decide) (by decide) (by decide)
  exact ⟨h.1, h.2.1⟩

/-- Claim C5, counterexample: with two records of roll number 1,
deleting roll number 1 removes only the first, so `findByRoll 1` still
finds the second record rather than reporting not-found. -/
theorem delete_then_find_cex :
    searchStudent
      ((StudentSystem.deleteStudent
        ⟨[⟨1, "A", "B", "C", "D"⟩, ⟨1, "E", "F", "G", "H"⟩], ""⟩ 1).1.students)
      1 ≠ none := by decide

/-- Claim C5 (amended): if a record with the given roll number is
present, delete removes exactly the first such record (later elements
shift down, the length decreases by exactly 1) and persists, and
afterwards findByRoll reports not-found provided no other record with
that roll number remains; if no record matches, delete leaves the
sequence (and the file) unchanged and reports not-found. -/
theorem deleteStudent_spec :
    (∀ (sys : StudentSystem) (roll : Int) (pre : List Student) (s : Student)
        (post : List Student),
        sys.students = pre ++ s :: post →
        (∀ t ∈ pre, t.rollNo ≠ roll) → s.rollNo = roll →
          (sys.deleteStudent roll).1.students = pre ++ post ∧
          (sys.deleteStudent roll).2 = true ∧
          (sys.deleteStudent roll).1.file =
            StudentSystem.saveToFile (pre ++ post) ∧
          (sys.deleteStudent roll).1.students.length + 1 =
            sys.students.length ∧
          ((∀ t ∈ pre ++ post, t.rollNo ≠ roll) →
            searchStudent (sys.deleteStudent roll).1.students roll = none)) ∧
    (∀ (sys : StudentSystem) (roll : Int),
        (∀ t ∈ sys.students, t.rollNo ≠ roll) →
          (sys.deleteStudent roll).1.students = sys.students ∧
          (sys.deleteStudent roll).2 = false ∧
          (sys.deleteStudent roll).1.file = sys.file) := by
  constructor
  · intro sys roll pre s post hdecomp hpre hs
    have hpair : deleteFirstByRoll roll sys.students = (pre ++ post, true) := by
      rw [hdecomp]
      exact deleteFirstByRoll_found roll s post hs pre hpre
    have h1 : (sys.deleteStudent roll).1.students = pre ++ post := by
      show (deleteFirstByRoll roll sys.students).1 = _
      rw [hpair]
    refine ⟨h1, ?_, ?_, ?_, ?_⟩
    · show (deleteFirstByRoll roll sys.students).2 = true
      rw [hpair]
    · show (if (deleteFirstByRoll roll sys.students).2 = true
          then StudentSystem.saveToFile (deleteFirstByRoll roll sys.students).1
          else sys.file) = StudentSystem.saveToFile (pre ++ post)
      rw [hpair]
      simp
    · rw [h1, hdecomp]
      simp only [List.length_append, List.length_cons]
      omega
    · intro hno
      rw [h1]
      exact (searchStudent_eq_none_iff _ _).2 hno
  · intro sys roll h
    have hpair : deleteFirstByRoll roll sys.students = (sys.students, false) :=
      deleteFirstByRoll_not_found roll sys.students h
    refine ⟨?_, ?_, ?_⟩
    · show (deleteFirstByRoll roll sys.students).1 = _
      rw [hpair]
    · show (deleteFirstByRoll roll sys.students).2 = false
      rw [hpair]
    · show (if (deleteFirstByRoll roll sys.students).2 = true
          then StudentSystem.saveToFile (deleteFirstByRoll roll sys.students).1
          else sys.file) = sys.file
      rw [hpair]
      simp

theorem deleteStudent_spec_witness :
    ((⟨[⟨1, "A", "B", "C", "D"⟩], "f"⟩ : StudentSystem).deleteStudent 1).1.students
        = [] ∧
    ((⟨[⟨1, "A", "B", "C", "D"⟩], "f"⟩ : StudentSystem).deleteStudent 1).2 = true ∧
    searchStudent
        ((⟨[⟨1, "A", "B", "C", "D"⟩], "f"⟩ :
          StudentSystem).deleteStudent 1).1.students 1 = none ∧
    ((⟨[⟨1, "A", "B", "C", "D"⟩], "f"⟩ : StudentSystem).deleteStudent 2).1.students
        = [⟨1, "A", "B", "C", "D"⟩] ∧
    ((⟨[⟨1, "A", "B", "C", "D"⟩], "f"⟩ : StudentSystem).deleteStudent 2).2 =
      false := by
  have h1 := deleteStudent_spec.1 ⟨[⟨1, "A", "B", "C", "D"⟩], "f"⟩ 1 []
    ⟨1, "A", "B", "C", "D"⟩ [] rfl (by decide) rfl
  have h2 := deleteStudent_spec.2 ⟨[⟨1, "A", "B", "C", "D"⟩], "f"⟩ 2 (by decide)
  exact ⟨h1.1, h1.2.1, h1.2.2.2.2 (by decide), h2.1, h2.2.1⟩

/-- Claim C6: when a record with the given roll number is present,
updateName renames the first such record in place, leaving its other
four fields and every other record unchanged (so findByRoll then sees
the new name); when none is present, it reports failure and leaves the
sequence (and the file) unchanged. -/
theorem updateName_first_match_frame :
    (∀ (sys : StudentSystem) (roll : Int) (newName : String)
        (pre : List Student) (s : Student) (post : List Student),
        sys.students = pre ++ s :: post →
        (∀ t ∈ pre, t.rollNo ≠ roll) → s.rollNo = roll →
          (sys.updateStudent roll newName).1.students =
            pre ++ { s with name := newName } :: post ∧
          (sys.updateStudent roll newName).2 = true ∧
          searchStudent (sys.updateStudent roll newName).1.students roll =
            some { s with name := newName }) ∧
    (∀ (sys : StudentSystem) (roll : Int) (newName : String),
        (∀ t ∈ sys.students, t.rollNo ≠ roll) →
          (sys.updateStudent roll newName).1.students = sys.students ∧
          (sys.updateStudent roll newName).2 = false ∧
          (sys.updateStudent roll newName).1.file = sys.file) := by
  constructor
  · intro sys roll newName pre s post hdecomp hpre hs
    have hpair : updateFirstByRoll roll newName sys.students =
        (pre ++ { s with name := newName } :: post, true) := by
      rw [hdecomp]
      exact updateFirstByRoll_found roll newName s post hs pre hpre
    have h1 : (sys.updateStudent roll newName).1.students =
        pre ++ { s with name := newName } :: post := by
      show (updateFirstByRoll roll newName sys.students).1 = _
      rw [hpair]
    refine ⟨h1, ?_, ?_⟩
    · show (updateFirstByRoll roll newName sys.students).2 = true
      rw [hpair]
    · rw [h1]
      exact searchStudent_append_first roll { s with name := newName } post hs
        pre hpre
  · intro sys roll newName h
    have hpair : updateFirstByRoll roll newName sys.students =
        (sys.students, false) :=
      updateFirstByRoll_not_found roll newName sys.students h
    refine ⟨?_, ?_, ?_⟩
    · show (updateFirstByRoll roll newName sys.students).1 = _
      rw [hpair]
    · show (updateFirstByRoll roll newName sys.students).2 = false
      rw [hpair]
    · show (if (updateFirstByRoll roll newName sys.students).2 = true
          then StudentSystem.saveToFile
            (updateFirstByRoll roll newName sys.students).1
          else sys.file) = sys.file
      rw [hpair]
      simp

theorem updateName_first_match_frame_witness :
    ((⟨[⟨1, "A", "B", "C", "D"⟩, ⟨2, "E", "F", "G", "H"⟩], "f"⟩ :
        StudentSystem).updateStudent 2 "Z").1.students =
      [⟨1, "A", "B", "C", "D"⟩, ⟨2, "Z", "F", "G", "H"⟩] ∧
    ((⟨[⟨1, "A", "B", "C", "D"⟩, ⟨2, "E", "F", "G", "H"⟩], "f"⟩ :
        StudentSystem).updateStudent 3 "Z").2 = false := by
  have h1 := updateName_first_match_frame.1
    ⟨[⟨1, "A", "B", "C", "D"⟩, ⟨2, "E", "F", "G", "H"⟩], "f"⟩ 2 "Z"
    [⟨1, "A", "B", "C", "D"⟩] ⟨2, "E", "F", "G", "H"⟩ [] rfl (by decide) rfl
  have h2 := updateName_first_match_frame.2
    ⟨[⟨1, "A", "B", "C", "D"⟩, ⟨2, "E", "F", "G", "H"⟩], "f"⟩ 3 "Z" (by decide)
  exact ⟨h1.1, h2.2.1⟩

/-- Claim C7: findByRoll scans the sequence in order and returns the
first record whose roll number matches (characterized both for a hit
and for a miss); in particular, after adding two records with the same
roll number to a store that did not contain it, it returns the one
added first. -/
theorem findByRoll_first_match :
    (∀ (l : List Student) (roll : Int) (s : Student),
        searchStudent l roll = some s ↔
          ∃ pre post, l = pre ++ s :: post ∧
            (∀ t ∈ pre, t.rollNo ≠ roll) ∧ s.rollNo = roll) ∧
    (∀ (l : List Student) (roll : Int),
        searchStudent l roll = none ↔ ∀ t ∈ l, t.rollNo ≠ roll) ∧
    (∀ (sys : StudentSystem) (roll : Int) (n1 d1 e1 p1 n2 d2 e2 p2 : String),
        (∀ t ∈ sys.students, t.rollNo ≠ roll) →
        searchStudent
          ((sys.addStudent roll n1 d1 e1 p1).addStudent roll n2 d2 e2 p2).students
          roll = some ⟨roll, n1, d1, e1, p1⟩) := by
  refine ⟨fun l roll s => searchStudent_eq_some_iff roll s l,
    fun l roll => searchStudent_eq_none_iff l roll, ?_⟩
  intro sys roll n1 d1 e1 p1 n2 d2 e2 p2 hfresh
  show searchStudent
      ((sys.students ++ [⟨roll, n1, d1, e1, p1⟩]) ++ [⟨roll, n2, d2, e2, p2⟩])
      roll = some ⟨roll, n1, d1, e1, p1⟩
  rw [List.append_assoc]
  exact searchStudent_append_first roll _ _ rfl sys.students hfresh

theorem findByRoll_first_match_witness :
    searchStudent
      (((⟨[], ""⟩ : StudentSystem).addStudent 1 "A" "B" "C" "D").addStudent
        1 "E" "F" "G" "H").students 1 = some ⟨1, "A", "B", "C", "D"⟩ :=
  findByRoll_first_match.2.2 ⟨[], ""⟩ 1 "A" "B" "C" "D" "E" "F" "G" "H"
    (by decide)

/-- Claim C8: add appends a record built from the given five field
values to the end of the sequence — with no uniqueness check on the
roll number, for any store state whatsoever — then persists the whole
sequence; it always succeeds and leaves all previously present records
unchanged in value and order. -/
theorem addStudent_appends (sys : StudentSystem) (roll : Int)
    (n d e p : String) :
    (sys.addStudent roll n d e p).students =
      sys.students ++ [⟨roll, n, d, e, p⟩] ∧
    (sys.addStudent roll n d e p).file =
      StudentSystem.saveToFile (sys.students ++ [⟨roll, n, d, e, p⟩]) :=
  ⟨rfl, rfl⟩

/-- Claim C9: the backing file is written only by the mutating
operations — any sequence of view/search steps leaves the file
byte-for-byte unchanged, and constructing the store (which loads the
file) leaves the file equal to what was read. -/
theorem readonly_ops_preserve_file :
    (∀ (sys : StudentSystem) (cs : List Cmd),
        (∀ c ∈ cs, c.isReadOnly = true) →
        (cs.foldl step sys).file = sys.file) ∧
    (∀ (junk : Int) (content : String) (sys : StudentSystem),
        StudentSystem.init junk content = some sys → sys.file = content) := by
  constructor
  · intro sys cs
    induction cs generalizing sys with
    | nil => intro _; rfl
    | cons c cs ih =>
        intro h
        rw [List.foldl_cons]
        have hstep : step sys c = sys := by
          cases c with
          | view => rfl
          | search roll => rfl
          | add roll n d e p =>
              exact Bool.noConfusion (h _ (List.mem_cons_self _ _))
          | update roll n =>
              exact Bool.noConfusion (h _ (List.mem_cons_self _ _))
          | delete roll =>
              exact Bool.noConfusion (h _ (List.mem_cons_self _ _))
        rw [hstep]
        exact ih sys (fun x hx => h x (List.mem_cons_of_mem c hx))
  · intro junk content sys h
    unfold StudentSystem.init at h
    cases hload : StudentSystem.loadFromFile junk content with
    | none =>
        rw [hload] at h
        exact Option.noConfusion h
    | some sts =>
        rw [hload] at h
        injection h with h2
        rw [← h2]

theorem readonly_ops_preserve_file_witness :
    (([Cmd.view, Cmd.search 1].foldl step
        ⟨[⟨1, "A", "B", "C", "D"⟩], "f"⟩).file = "f") ∧
    (⟨[⟨1, "A", "B", "C", "D"⟩], "1,A,B,C,D\n"⟩ : StudentSystem).file =
      "1,A,B,C,D\n" :=
  ⟨readonly_ops_preserve_file.1 ⟨[⟨1, "A", "B", "C", "D"⟩], "f"⟩
      [Cmd.view, Cmd.search 1] (by decide),
    readonly_ops_preserve_file.2 0 "1,A,B,C,D\n"
      ⟨[⟨1, "A", "B", "C", "D"⟩], "1,A,B,C,D\n"⟩ (by decide)⟩

/-- Claim C10: for every input line whose comma-split yields exactly 5
parts, parse feeds the first part to the integer conversion with no
guard and builds the record from the conversion's result and the other
four parts; the conversion's error branch is reachable — on the line
`a,b,c,d,e` the conversion fails and parse returns no record (the
exception propagates). -/
theorem fromString_unguarded_stoi :
    (∀ (junk : Int) (line : String) (p0 p1 p2 p3 p4 : List Char),
        splitOnChar ',' line.data = [p0, p1, p2, p3, p4] →
        Student.fromString junk line =
          (stoi ⟨p0⟩).map (fun r => ⟨r, ⟨p1⟩, ⟨p2⟩, ⟨p3⟩, ⟨p4⟩⟩)) ∧
    (∀ junk : Int, Student.fromString junk "a,b,c,d,e" = none) :=
  ⟨fromString_five, fun _ => rfl⟩

theorem fromString_unguarded_stoi_witness :
    splitOnChar ',' ("a,b,c,d,e" : String).data =
      [['a'], ['b'], ['c'], ['d'], ['e']] ∧
    Student.fromString 0 "a,b,c,d,e" =
      (stoi ⟨['a']⟩).map (fun r => ⟨r, ⟨['b']⟩, ⟨['c']⟩, ⟨['d']⟩, ⟨['e']⟩⟩) :=
  ⟨by decide, fromString_unguarded_stoi.1 0 "a,b,c,d,e" _ _ _ _ _ (by decide)⟩
